import Mathlib

/-!
# eval-hub: verification of the runtime dispatch component and HTTP/storage helpers

Shallow embedding of the eval-hub repository.  The parts present in the
source tree (`internal/storage/sql/helper.go`, `internal/handlers/*.go`)
are translated directly; the Kubernetes runtime dispatcher
(`RunEvaluationJob`, `Teardown`, `jobName`, `configMapName`, the config
renderer) is exercised only through its test file in the tree, so those
definitions are modelled from the specification, as indicated in their
doc comments.
-/

namespace EvalHub

/-! ## SQL storage helpers (from `internal/storage/sql/helper.go`) -/

/-- Translation of `createEvaluationsTable` in `internal/storage/sql/helper.go`. -/
def createEvaluationsTable : String :=
  "CREATE TABLE IF NOT EXISTS Evaluations (\n    id INTEGER PRIMARY KEY AUTOINCREMENT,\n    entity TEXT NOT NULL CHECK (json_valid(entity))\n);"

/-- Translation of `createCollectionsTable` in `internal/storage/sql/helper.go`. -/
def createCollectionsTable : String :=
  "CREATE TABLE IF NOT EXISTS Collections (\n    id INTEGER PRIMARY KEY AUTOINCREMENT,\n    entity TEXT NOT NULL CHECK (json_valid(entity))\n);"

/-- Translation of `createAddEntityStatement` in `internal/storage/sql/helper.go`.
The Go function takes no arguments and returns a fixed statement, despite its
doc comment describing an argument order of `table_name entity`. -/
def createAddEntityStatement : String :=
  "INSERT INTO Evaluations (entity)\n\tVALUES (?);"

/-! ## ResourceNamer

Modelled from the spec: the k8s runtime's `jobName` and `configMapName`
helpers are pure, deterministic, total functions from `(jobID, benchmarkID)`
to cluster-legal object names (lowercase alphanumerics and hyphens only,
at most 63 characters); inputs outside the legal charset or length are
normalized and truncated rather than rejected.  The implementation file of
the `k8s` package is not in the tree (only its test), so the namer is
modelled here: illegal characters are normalized to `-` and the combined
name is truncated to 63 characters. -/

/-- A character legal in a cluster object name: lowercase letter, digit, or hyphen. -/
def isNameChar (c : Char) : Bool :=
  c.isLower || c.isDigit || c == '-'

/-- Modelled from the spec: normalization of a single identifier character;
characters outside the legal charset become `-`. -/
def sanitizeChar (c : Char) : Char :=
  if isNameChar c then c else '-'

/-- Modelled from the spec: normalization of an identifier. -/
def sanitize (s : String) : String :=
  String.mk (s.data.map sanitizeChar)

/-- Modelled from the spec: truncation of a candidate name to the 63-character bound. -/
def clipName (s : String) : String :=
  String.mk (s.data.take 63)

/-- Modelled from the spec: deterministic execution-unit name for `(jobID, benchmarkID)`. -/
def jobName (jobID benchmarkID : String) : String :=
  clipName ("eval-" ++ sanitize jobID ++ "-" ++ sanitize benchmarkID)

/-- Modelled from the spec: deterministic configuration-object name for `(jobID, benchmarkID)`. -/
def configMapName (jobID benchmarkID : String) : String :=
  clipName ("eval-cfg-" ++ sanitize jobID ++ "-" ++ sanitize benchmarkID)

/-! ### Namer lemmas -/

lemma sanitizeChar_legal (c : Char) : isNameChar (sanitizeChar c) = true := by
  unfold sanitizeChar
  by_cases h : isNameChar c = true
  · simp [h]
  · simp [h]
    decide

lemma sanitize_data (s : String) : (sanitize s).data = s.data.map sanitizeChar := rfl

lemma sanitize_of_legal (s : String) (h : s.data.all isNameChar = true) :
    sanitize s = s := by
  have hall := List.all_eq_true.mp h
  cases s with
  | mk l =>
    unfold sanitize
    congr 1
    calc l.map sanitizeChar = l.map id := by
          apply List.map_congr_left
          intro c hc
          unfold sanitizeChar
          simp [hall c hc]
      _ = l := List.map_id l

lemma sanitize_length (s : String) : (sanitize s).length = s.length := by
  cases s with
  | mk l => simp [sanitize, String.length]

lemma clipName_length (s : String) : (clipName s).length ≤ 63 := by
  cases s with
  | mk l => simp [clipName, String.length]

lemma clipName_of_short (s : String) (h : s.length ≤ 63) : clipName s = s := by
  cases s with
  | mk l =>
    unfold clipName
    congr 1
    exact List.take_of_length_le (by simpa [String.length] using h)

lemma data_append (s t : String) : (s ++ t).data = s.data ++ t.data := rfl

lemma length_append (s t : String) : (s ++ t).length = s.length + t.length := by
  cases s with
  | mk l =>
    cases t with
    | mk m => exact List.length_append l m

lemma clipName_all_legal (s : String) (h : s.data.all isNameChar = true) :
    (clipName s).data.all isNameChar = true := by
  cases s with
  | mk l =>
    have hall := List.all_eq_true.mp h
    apply List.all_eq_true.mpr
    intro c hc
    exact hall c (List.mem_of_mem_take hc)

/-! ## ConfigRenderer payloads

Modelled from the spec: the ConfigRenderer serializes a benchmark's
parameter mapping (plus identifying labels: job id, benchmark id,
provider id) into a single payload stored in the configuration object.
The renderer source is not in the tree, so the payload is modelled as a
token stream with a decoder; integral and floating-point numbers are
distinct token kinds, so no coercion between them can occur. -/

/-- Modelled from the spec: the value domain of a parameter mapping
(numbers, strings, booleans, nested structures).  A floating-point value
is carried as a scaled decimal (mantissa and decimal exponent), distinct
from the integer constructor. -/
inductive JValue where
  | null : JValue
  | bool (b : Bool) : JValue
  | int (n : Int) : JValue
  | float (mant : Int) (exp : Int) : JValue
  | str (s : String) : JValue
  | arr (xs : List JValue) : JValue
  | obj (fields : List (String × JValue)) : JValue

/-- Tokens of the serialized configuration payload. -/
inductive Token where
  | null : Token
  | bool (b : Bool) : Token
  | int (n : Int) : Token
  | float (mant : Int) (exp : Int) : Token
  | str (s : String) : Token
  | arrOpen : Token
  | arrClose : Token
  | objOpen : Token
  | objClose : Token
  | key (k : String) : Token
deriving DecidableEq

mutual

/-- Modelled from the spec: serialization of a single parameter value. -/
def encode : JValue → List Token
  | .null => [Token.null]
  | .bool b => [Token.bool b]
  | .int n => [Token.int n]
  | .float m e => [Token.float m e]
  | .str s => [Token.str s]
  | .arr xs => Token.arrOpen :: encodeItems xs ++ [Token.arrClose]
  | .obj fs => Token.objOpen :: encodeFields fs ++ [Token.objClose]

/-- Serialization of the elements of an array value. -/
def encodeItems : List JValue → List Token
  | [] => []
  | v :: vs => encode v ++ encodeItems vs

/-- Serialization of the fields of an object value. -/
def encodeFields : List (String × JValue) → List Token
  | [] => []
  | (k, v) :: fs => Token.key k :: (encode v ++ encodeFields fs)

end

mutual

/-- Fuel needed to decode a value. -/
def fuelOf : JValue → Nat
  | .arr xs => 1 + fuelOfItems xs
  | .obj fs => 1 + fuelOfFields fs
  | _ => 1

/-- Fuel needed to decode an array's elements up to the closing token. -/
def fuelOfItems : List JValue → Nat
  | [] => 1
  | v :: vs => 1 + fuelOf v + fuelOfItems vs

/-- Fuel needed to decode an object's fields up to the closing token. -/
def fuelOfFields : List (String × JValue) → Nat
  | [] => 1
  | (_, v) :: fs => 1 + fuelOf v + fuelOfFields fs

end

mutual

/-- Fuelled decoder for a single value; returns the value and the remaining tokens. -/
def decodeV : Nat → List Token → Option (JValue × List Token)
  | 0, _ => none
  | Nat.succ f, ts =>
    match ts with
    | Token.null :: r => some (JValue.null, r)
    | Token.bool b :: r => some (JValue.bool b, r)
    | Token.int n :: r => some (JValue.int n, r)
    | Token.float m e :: r => some (JValue.float m e, r)
    | Token.str s :: r => some (JValue.str s, r)
    | Token.arrOpen :: r =>
      match decodeItems f r with
      | some (vs, r') => some (JValue.arr vs, r')
      | none => none
    | Token.objOpen :: r =>
      match decodeFields f r with
      | some (fs, r') => some (JValue.obj fs, r')
      | none => none
    | _ => none

/-- Fuelled decoder for array elements, consuming the closing token. -/
def decodeItems : Nat → List Token → Option (List JValue × List Token)
  | 0, _ => none
  | Nat.succ f, ts =>
    match ts with
    | Token.arrClose :: r => some ([], r)
    | _ =>
      match decodeV f ts with
      | some (v, r) =>
        match decodeItems f r with
        | some (vs, r') => some (v :: vs, r')
        | none => none
      | none => none

/-- Fuelled decoder for object fields, consuming the closing token. -/
def decodeFields : Nat → List Token → Option (List (String × JValue) × List Token)
  | 0, _ => none
  | Nat.succ f, ts =>
    match ts with
    | Token.objClose :: r => some ([], r)
    | Token.key k :: r =>
      match decodeV f r with
      | some (v, r') =>
        match decodeFields f r' with
        | some (fs, r'') => some ((k, v) :: fs, r'')
        | none => none
      | none => none
    | _ => none

end

/-- Top-level decoder: the fuel is derived from the payload length. -/
def decodePayload (ts : List Token) : Option (JValue × List Token) :=
  decodeV (2 * ts.length) ts

/-- Modelled from the spec: the rendered configuration payload for a benchmark —
the identifying labels (job id, benchmark id, provider id) followed by the
parameter mapping, serialized as one object. -/
def renderConfig (jobID benchmarkID providerID : String)
    (params : List (String × JValue)) : List Token :=
  encode (JValue.obj ([("job_id", JValue.str jobID),
                       ("benchmark_id", JValue.str benchmarkID),
                       ("provider_id", JValue.str providerID)] ++ params))

/-! ### Decoder correctness -/

lemma fuelOf_pos (v : JValue) : 0 < fuelOf v := by
  cases v <;> simp [fuelOf]

lemma fuelOfItems_pos (xs : List JValue) : 0 < fuelOfItems xs := by
  cases xs <;> simp [fuelOfItems]

lemma fuelOfFields_pos (fs : List (String × JValue)) : 0 < fuelOfFields fs := by
  cases fs with
  | nil => simp [fuelOfFields]
  | cons f fs => cases f; simp [fuelOfFields]

lemma encode_head (v : JValue) :
    ∃ t r, encode v = t :: r ∧ t ≠ Token.arrClose := by
  cases v with
  | null => exact ⟨Token.null, [], rfl, fun hh => Token.noConfusion hh⟩
  | bool b => exact ⟨Token.bool b, [], rfl, fun hh => Token.noConfusion hh⟩
  | int n => exact ⟨Token.int n, [], rfl, fun hh => Token.noConfusion hh⟩
  | float m e => exact ⟨Token.float m e, [], rfl, fun hh => Token.noConfusion hh⟩
  | str s => exact ⟨Token.str s, [], rfl, fun hh => Token.noConfusion hh⟩
  | arr xs =>
    exact ⟨Token.arrOpen, encodeItems xs ++ [Token.arrClose], rfl,
      fun hh => Token.noConfusion hh⟩
  | obj fs =>
    exact ⟨Token.objOpen, encodeFields fs ++ [Token.objClose], rfl,
      fun hh => Token.noConfusion hh⟩

lemma decodeItems_cons (f : Nat) (t : Token) (r : List Token) (h : t ≠ Token.arrClose) :
    decodeItems (f + 1) (t :: r) =
      match decodeV f (t :: r) with
      | some (v, r') =>
        match decodeItems f r' with
        | some (vs, r'') => some (v :: vs, r'')
        | none => none
      | none => none := by
  cases t <;> first
    | exact absurd rfl h
    | rfl

lemma decode_sound (f : Nat) :
    (∀ v rest, fuelOf v ≤ f → decodeV f (encode v ++ rest) = some (v, rest)) ∧
    (∀ xs rest, fuelOfItems xs ≤ f →
      decodeItems f (encodeItems xs ++ Token.arrClose :: rest) = some (xs, rest)) ∧
    (∀ fs rest, fuelOfFields fs ≤ f →
      decodeFields f (encodeFields fs ++ Token.objClose :: rest) = some (fs, rest)) := by
  induction f with
  | zero =>
    refine ⟨?_, ?_, ?_⟩
    · intro v _ h; have := fuelOf_pos v; omega
    · intro xs _ h; have := fuelOfItems_pos xs; omega
    · intro fs _ h; have := fuelOfFields_pos fs; omega
  | succ f ih =>
    refine ⟨?_, ?_, ?_⟩
    · intro v rest h
      cases v with
      | null => rfl
      | bool b => rfl
      | int n => rfl
      | float m e => rfl
      | str s => rfl
      | arr xs =>
        have hx : fuelOfItems xs ≤ f := by
          simp [fuelOf] at h; omega
        have : encode (JValue.arr xs) ++ rest =
            Token.arrOpen :: (encodeItems xs ++ Token.arrClose :: rest) := by
          simp [encode]
        rw [this]
        show (match decodeItems f (encodeItems xs ++ Token.arrClose :: rest) with
              | some (vs, r') => some (JValue.arr vs, r')
              | none => none) = some (JValue.arr xs, rest)
        rw [ih.2.1 xs rest hx]
      | obj fs =>
        have hx : fuelOfFields fs ≤ f := by
          simp [fuelOf] at h; omega
        have : encode (JValue.obj fs) ++ rest =
            Token.objOpen :: (encodeFields fs ++ Token.objClose :: rest) := by
          simp [encode]
        rw [this]
        show (match decodeFields f (encodeFields fs ++ Token.objClose :: rest) with
              | some (gs, r') => some (JValue.obj gs, r')
              | none => none) = some (JValue.obj fs, rest)
        rw [ih.2.2 fs rest hx]
    · intro xs rest h
      cases xs with
      | nil => rfl
      | cons v vs =>
        have hv : fuelOf v ≤ f := by
          simp [fuelOfItems] at h; omega
        have hvs : fuelOfItems vs ≤ f := by
          simp [fuelOfItems] at h; omega
        obtain ⟨t, r, hvr, ht⟩ := encode_head v
        have hshape : encodeItems (v :: vs) ++ Token.arrClose :: rest =
            t :: (r ++ (encodeItems vs ++ Token.arrClose :: rest)) := by
          simp [encodeItems, hvr]
        rw [hshape, decodeItems_cons f t _ ht]
        have hdv : decodeV f (t :: (r ++ (encodeItems vs ++ Token.arrClose :: rest)))
            = some (v, encodeItems vs ++ Token.arrClose :: rest) := by
          have := ih.1 v (encodeItems vs ++ Token.arrClose :: rest) hv
          rwa [hvr, List.cons_append] at this
        rw [hdv]
        simp [ih.2.1 vs rest hvs]
    · intro fs rest h
      cases fs with
      | nil => rfl
      | cons kv fs =>
        obtain ⟨k, v⟩ := kv
        have hv : fuelOf v ≤ f := by
          simp [fuelOfFields] at h; omega
        have hfs : fuelOfFields fs ≤ f := by
          simp [fuelOfFields] at h; omega
        have hshape : encodeFields ((k, v) :: fs) ++ Token.objClose :: rest =
            Token.key k :: (encode v ++ (encodeFields fs ++ Token.objClose :: rest)) := by
          simp [encodeFields]
        rw [hshape]
        show (match decodeV f (encode v ++ (encodeFields fs ++ Token.objClose :: rest)) with
              | some (w, r') =>
                match decodeFields f r' with
                | some (gs, r'') => some ((k, w) :: gs, r'')
                | none => none
              | none => none) = some ((k, v) :: fs, rest)
        rw [ih.1 v (encodeFields fs ++ Token.objClose :: rest) hv]
        simp [ih.2.2 fs rest hfs]

lemma fuel_le_aux (n : Nat) :
    (∀ v, fuelOf v ≤ n → fuelOf v + 1 ≤ 2 * (encode v).length) ∧
    (∀ xs, fuelOfItems xs ≤ n → fuelOfItems xs ≤ 2 * (encodeItems xs).length + 1) ∧
    (∀ fs, fuelOfFields fs ≤ n → fuelOfFields fs ≤ 2 * (encodeFields fs).length + 1) := by
  induction n with
  | zero =>
    refine ⟨?_, ?_, ?_⟩
    · intro v h; have := fuelOf_pos v; omega
    · intro xs h; have := fuelOfItems_pos xs; omega
    · intro fs h; have := fuelOfFields_pos fs; omega
  | succ n ih =>
    refine ⟨?_, ?_, ?_⟩
    · intro v h
      cases v with
      | null => simp [fuelOf, encode]
      | bool b => simp [fuelOf, encode]
      | int m => simp [fuelOf, encode]
      | float m e => simp [fuelOf, encode]
      | str s => simp [fuelOf, encode]
      | arr xs =>
        have hx : fuelOfItems xs ≤ n := by
          simp [fuelOf] at h; omega
        have := ih.2.1 xs hx
        simp [fuelOf, encode] at *
        omega
      | obj fs =>
        have hx : fuelOfFields fs ≤ n := by
          simp [fuelOf] at h; omega
        have := ih.2.2 fs hx
        simp [fuelOf, encode] at *
        omega
    · intro xs h
      cases xs with
      | nil => simp [fuelOfItems, encodeItems]
      | cons v vs =>
        have hv : fuelOf v ≤ n := by
          simp [fuelOfItems] at h; omega
        have hvs : fuelOfItems vs ≤ n := by
          simp [fuelOfItems] at h; omega
        have h1 := ih.1 v hv
        have h2 := ih.2.1 vs hvs
        simp [fuelOfItems, encodeItems] at *
        omega
    · intro fs h
      cases fs with
      | nil => simp [fuelOfFields, encodeFields]
      | cons kv fs =>
        obtain ⟨k, v⟩ := kv
        have hv : fuelOf v ≤ n := by
          simp [fuelOfFields] at h; omega
        have hfs : fuelOfFields fs ≤ n := by
          simp [fuelOfFields] at h; omega
        have h1 := ih.1 v hv
        have h2 := ih.2.2 fs hfs
        simp [fuelOfFields, encodeFields] at *
        omega

lemma fuelOf_le_payload (v : JValue) : fuelOf v ≤ 2 * (encode v).length := by
  have := (fuel_le_aux (fuelOf v)).1 v le_rfl
  omega

lemma decodePayload_encode (v : JValue) : decodePayload (encode v) = some (v, []) := by
  have h := (decode_sound (2 * (encode v).length)).1 v [] (fuelOf_le_payload v)
  simpa [decodePayload] using h

/-! ## Runtime dispatcher (modelled from the spec)

The `k8s` package's implementation file is not in the tree (only its test),
so `RunEvaluationJob` and `Teardown` are modelled from the spec: a two-phase
run (validate every benchmark, then — only if no error was recorded — submit
the configuration object and execution unit per benchmark, in list order),
and an idempotent teardown that treats not-found deletes as success. -/

structure EnvVar where
  name : String
  value : String
deriving DecidableEq

structure K8sAdapterSpec where
  image : String
  entrypoint : String
  cpuLimit : String
  memoryLimit : String
  env : List EnvVar
deriving DecidableEq

structure ProviderResource where
  providerID : String
  adapter : K8sAdapterSpec
deriving DecidableEq

structure ModelRef where
  url : String
  name : String
deriving DecidableEq

structure BenchmarkConfig where
  id : String
  providerID : String
  parameters : List (String × JValue)

structure EvaluationJob where
  id : String
  model : ModelRef
  benchmarks : List BenchmarkConfig

/-- The injected provider registry, mapping provider id to its resource. -/
abbrev Registry := List (String × ProviderResource)

/-- A cluster-resident execution unit, carrying the adapter data and the model reference. -/
structure JobObject where
  name : String
  configMapRef : String
  image : String
  entrypoint : String
  cpuLimit : String
  memoryLimit : String
  env : List EnvVar
  modelURL : String
  modelName : String
deriving DecidableEq

/-- A cluster-resident configuration object holding the rendered payload. -/
structure ConfigMapObject where
  name : String
  payload : List Token
deriving DecidableEq

/-- The namespaced cluster state: all state of record lives here. -/
structure Cluster where
  jobs : List JobObject
  configMaps : List ConfigMapObject
deriving DecidableEq

def emptyCluster : Cluster := ⟨[], []⟩

/-- Modelled from the spec: phase-1 validation of one benchmark — resolve the
provider id in the registry (absent: a NotFound-kind error referencing the
benchmark); otherwise require a non-empty adapter image, else a validation
error containing the literal phrase "runtime adapter image is required" and
the offending benchmark's reference. -/
def validateBenchmark (providers : Registry) (b : BenchmarkConfig) : Option String :=
  match providers.lookup b.providerID with
  | none => some ("provider " ++ b.providerID ++ " not found for benchmark " ++ b.id)
  | some p =>
    if p.adapter.image = "" then
      some ("runtime adapter image is required for benchmark " ++ b.id)
    else none

/-- All validation complaints of a job, in benchmark list order; every
benchmark is checked (no early stop). -/
def validationErrors (providers : Registry) (benchmarks : List BenchmarkConfig) :
    List String :=
  benchmarks.filterMap (validateBenchmark providers)

/-- Modelled from the spec: concatenation of the individual complaints into
one aggregated error message, separated so callers can test by substring. -/
def joinErrors : List String → String
  | [] => ""
  | [e] => e
  | e :: rest => e ++ "; " ++ joinErrors rest

def defaultAdapter : K8sAdapterSpec := ⟨"", "", "", "", []⟩

/-- Adapter spec of a provider id (the default is never used on the
submission path, which runs only after validation succeeded). -/
def resolveAdapter (providers : Registry) (pid : String) : K8sAdapterSpec :=
  match providers.lookup pid with
  | some p => p.adapter
  | none => defaultAdapter

/-- One outbound creation call against the cluster API. -/
inductive ClusterEvent where
  | createConfigMap (cm : ConfigMapObject) : ClusterEvent
  | createJob (j : JobObject) : ClusterEvent
deriving DecidableEq

/-- The configuration object built for one benchmark: the derived name and
the rendered parameter payload. -/
def configMapObjectFor (job : EvaluationJob) (b : BenchmarkConfig) : ConfigMapObject :=
  { name := configMapName job.id b.id
    payload := renderConfig job.id b.id b.providerID b.parameters }

/-- The execution unit built for one benchmark: the derived name, the
reference to its configuration object, the adapter data, and the model
reference. -/
def jobObjectFor (providers : Registry) (job : EvaluationJob)
    (b : BenchmarkConfig) : JobObject :=
  let adapter := resolveAdapter providers b.providerID
  { name := jobName job.id b.id
    configMapRef := configMapName job.id b.id
    image := adapter.image
    entrypoint := adapter.entrypoint
    cpuLimit := adapter.cpuLimit
    memoryLimit := adapter.memoryLimit
    env := adapter.env
    modelURL := job.model.url
    modelName := job.model.name }

/-- Modelled from the spec: the two submissions for one benchmark — the
configuration object first, then the execution unit referencing it. -/
def benchmarkEvents (providers : Registry) (job : EvaluationJob)
    (b : BenchmarkConfig) : List ClusterEvent :=
  [ClusterEvent.createConfigMap (configMapObjectFor job b),
   ClusterEvent.createJob (jobObjectFor providers job b)]

/-- Modelled from the spec: the ordered sequence of creation calls of the
submission phase — benchmarks in list order. -/
def submissionEvents (providers : Registry) (job : EvaluationJob) : List ClusterEvent :=
  job.benchmarks.flatMap (benchmarkEvents providers job)

def applyEvent (c : Cluster) (e : ClusterEvent) : Cluster :=
  match e with
  | .createConfigMap cm => { c with configMaps := c.configMaps ++ [cm] }
  | .createJob j => { c with jobs := c.jobs ++ [j] }

def applyEvents (c : Cluster) (es : List ClusterEvent) : Cluster :=
  es.foldl applyEvent c

/-- Modelled from the spec: `RunEvaluationJob` — phase 1 validates every
benchmark with no cluster mutation; if any error was recorded the aggregated
error is returned and zero cluster objects are created; otherwise phase 2
submits both objects per benchmark in list order. -/
def runEvaluationJob (providers : Registry) (job : EvaluationJob) (c : Cluster) :
    Option String × Cluster :=
  match validationErrors providers job.benchmarks with
  | [] => (none, applyEvents c (submissionEvents providers job))
  | e :: es => (some (joinErrors (e :: es)), c)

/-- Result of one raw delete call against the cluster API. -/
inductive DeleteOutcome where
  | deleted : DeleteOutcome
  | notFound : DeleteOutcome
deriving DecidableEq

def deleteJobObject (name : String) (c : Cluster) : DeleteOutcome × Cluster :=
  if c.jobs.any (fun j => j.name == name) then
    (DeleteOutcome.deleted, { c with jobs := c.jobs.filter (fun j => j.name != name) })
  else
    (DeleteOutcome.notFound, c)

def deleteConfigMapObject (name : String) (c : Cluster) : DeleteOutcome × Cluster :=
  if c.configMaps.any (fun cm => cm.name == name) then
    (DeleteOutcome.deleted,
      { c with configMaps := c.configMaps.filter (fun cm => cm.name != name) })
  else
    (DeleteOutcome.notFound, c)

/-- Modelled from the spec: teardown of one benchmark's resource pair —
recompute both names, delete the execution unit (the background/cascading
propagation policy acts inside the cluster and is external to this model)
and the configuration object. -/
def teardownBenchmark (jobID bid : String) (c : Cluster) :
    List DeleteOutcome × Cluster :=
  let r1 := deleteJobObject (jobName jobID bid) c
  let r2 := deleteConfigMapObject (configMapName jobID bid) r1.2
  ([r1.1, r2.1], r2.2)

/-- Raw outcomes of a whole teardown, every benchmark attempted in order. -/
def teardownOutcomes (jobID : String) (bids : List String) (c : Cluster) :
    List DeleteOutcome × Cluster :=
  match bids with
  | [] => ([], c)
  | b :: rest =>
    let r1 := teardownBenchmark jobID b c
    let r2 := teardownOutcomes jobID rest r1.2
    (r1.1 ++ r2.1, r2.2)

/-- Modelled from the spec: NotFoundOnDelete is explicitly not an error —
teardown swallows it; a completed delete is success as well. -/
def deleteError : DeleteOutcome → Option String
  | .deleted => none
  | .notFound => none

/-- Modelled from the spec: `Teardown` — every benchmark is attempted,
not-found deletes are swallowed, remaining errors would be aggregated. -/
def teardown (jobID : String) (bids : List String) (c : Cluster) :
    Option String × Cluster :=
  let r := teardownOutcomes jobID bids c
  match r.1.filterMap deleteError with
  | [] => (none, r.2)
  | e :: es => (some (joinErrors (e :: es)), r.2)

/-! ## HTTP handlers (from `internal/handlers`, file with evaluation handlers)

The handlers receive an execution context and a response wrapper; the
embedding abstracts the context into the outcomes of its collaborators
(body read, deserialization, storage) and records the response written
and the arguments passed to the storage layer. -/

/-- The single write a handler performs on the response wrapper: either
`w.Error(msg, status, requestID)` or `w.WriteJSON(body, status)`. -/
inductive HandlerWrite (ρ : Type) where
  | error (msg : String) (status : Nat) : HandlerWrite ρ
  | json (body : Option ρ) (status : Nat) : HandlerWrite ρ
deriving DecidableEq

/-- Translation of `HandleCreateEvaluation`: read the body bytes (500 on
failure), deserialize and validate (400 on failure, storage untouched),
persist through `storage.CreateEvaluationJob` (500 on failure), answer 202
with the storage response.  The second component records the evaluations
passed to the storage layer. -/
def handleCreateEvaluation {β ε ρ : Type}
    (bodyBytes : Except String β)
    (unmarshal : β → Except String ε)
    (createEvaluationJob : ε → Except String ρ) :
    HandlerWrite ρ × List ε :=
  match bodyBytes with
  | .error e => (.error e 500, [])
  | .ok bs =>
    match unmarshal bs with
    | .error e => (.error e 400, [])
    | .ok ev =>
      match createEvaluationJob ev with
      | .error e => (.error e 500, [ev])
      | .ok resp => (.json (some resp) 202, [ev])

/-- Translation of Go `strings.Split(s, sep)` for a one-character separator:
all substrings between consecutive separators, in order. -/
def splitOnChar (sep : Char) : List Char → List (List Char)
  | [] => [[]]
  | c :: rest =>
    if c = sep then [] :: splitOnChar sep rest
    else
      match splitOnChar sep rest with
      | [] => [[c]]
      | p :: ps => (c :: p) :: ps

/-- The last element of a split result (`pathParts[len(pathParts)-1]`). -/
def lastPart : List (List Char) → List Char
  | [] => []
  | [p] => p
  | _ :: ps => lastPart ps

/-- Translation of the id extraction in `HandleCancelEvaluation`:
`strings.Split(uri, "/")` followed by taking the final element. -/
def extractJobID (uri : String) : String :=
  String.mk (lastPart (splitOnChar '/' uri.data))

/-- Translation of `HandleCancelEvaluation`: extract the id from the URI,
call `storage.DeleteEvaluationJob` with it, answer 500 with the error text
on failure and 204 with a nil body on success.  The second component
records the ids passed to the storage layer. -/
def handleCancelEvaluation {ρ : Type}
    (uri : String)
    (deleteEvaluationJob : String → Except String ρ) :
    HandlerWrite ρ × List String :=
  let id := extractJobID uri
  match deleteEvaluationJob id with
  | .error e => (.error e 500, [id])
  | .ok _ => (.json none 204, [id])

/-- The substring of a string after its final `/` character (the whole
string when it has no `/`); stated from the claim, to be compared with the
handler's extraction. -/
def afterLastSlash (s : String) : String :=
  String.mk ((s.data.reverse.takeWhile (fun c => c != '/')).reverse)

/-! ### Path splitting lemmas -/

lemma splitOnChar_ne_nil (sep : Char) (l : List Char) : splitOnChar sep l ≠ [] := by
  cases l with
  | nil => simp [splitOnChar]
  | cons c rest =>
    unfold splitOnChar
    by_cases h : c = sep
    · simp [h]
    · simp only [if_neg h]
      cases splitOnChar sep rest <;> simp

lemma lastPart_cons (x : List Char) (xs : List (List Char)) (h : xs ≠ []) :
    lastPart (x :: xs) = lastPart xs := by
  cases xs with
  | nil => exact absurd rfl h
  | cons y ys => rfl

lemma splitOnChar_of_not_mem (sep : Char) (l : List Char) (h : sep ∉ l) :
    splitOnChar sep l = [l] := by
  induction l with
  | nil => rfl
  | cons c rest ih =>
    rw [List.mem_cons, not_or] at h
    have hc : ¬ c = sep := fun hh => h.1 hh.symm
    unfold splitOnChar
    rw [if_neg hc, ih h.2]

lemma two_le_splitOnChar_of_mem (sep : Char) (l : List Char) (h : sep ∈ l) :
    2 ≤ (splitOnChar sep l).length := by
  induction l with
  | nil => simp at h
  | cons c rest ih =>
    unfold splitOnChar
    by_cases hc : c = sep
    · rw [if_pos hc]
      have h1 : splitOnChar sep rest ≠ [] := splitOnChar_ne_nil sep rest
      have h2 : 0 < (splitOnChar sep rest).length := List.length_pos.mpr h1
      simp only [List.length_cons]
      omega
    · rw [if_neg hc]
      have hm : sep ∈ rest := by
        rcases List.mem_cons.mp h with h1 | h1
        · exact absurd h1.symm hc
        · exact h1
      have ih2 := ih hm
      cases hsp : splitOnChar sep rest with
      | nil => exact absurd hsp (splitOnChar_ne_nil sep rest)
      | cons p ps =>
        rw [hsp] at ih2
        simp only [List.length_cons] at ih2 ⊢
        omega

lemma takeWhile_of_all {α : Type} (p : α → Bool) (l : List α) (h : l.all p = true) :
    l.takeWhile p = l := by
  induction l with
  | nil => rfl
  | cons a l ih =>
    simp only [List.all_cons, Bool.and_eq_true] at h
    simp [List.takeWhile_cons, h.1, ih h.2]

lemma takeWhile_append_of_all {α : Type} (p : α → Bool) (l₁ l₂ : List α)
    (h : l₁.all p = true) :
    (l₁ ++ l₂).takeWhile p = l₁ ++ l₂.takeWhile p := by
  induction l₁ with
  | nil => rfl
  | cons a l ih =>
    simp only [List.all_cons, Bool.and_eq_true] at h
    simp [List.takeWhile_cons, h.1, ih h.2]

lemma takeWhile_append_of_not_all {α : Type} (p : α → Bool) (l₁ l₂ : List α)
    (h : l₁.all p = false) :
    (l₁ ++ l₂).takeWhile p = l₁.takeWhile p := by
  induction l₁ with
  | nil => simp at h
  | cons a l ih =>
    simp only [List.all_cons, Bool.and_eq_false_iff] at h
    by_cases ha : p a = true
    · have hl : l.all p = false := by
        rcases h with h | h
        · rw [ha] at h; exact absurd h (by simp)
        · exact h
      simp [List.takeWhile_cons, ha, ih hl]
    · have hpa : p a = false := by
        cases hv : p a
        · rfl
        · exact absurd hv ha
      simp [List.takeWhile_cons, hpa]

lemma lastPart_splitOnChar (sep : Char) (l : List Char) :
    lastPart (splitOnChar sep l) = (l.reverse.takeWhile (fun c => c != sep)).reverse := by
  induction l with
  | nil => rfl
  | cons c rest ih =>
    by_cases hc : c = sep
    · subst hc
      unfold splitOnChar
      rw [if_pos rfl]
      rw [lastPart_cons _ _ (splitOnChar_ne_nil c rest), ih, List.reverse_cons]
      by_cases hall : rest.reverse.all (fun x => x != c) = true
      · rw [takeWhile_append_of_all _ _ _ hall, takeWhile_of_all _ _ hall]
        simp [List.takeWhile_cons]
      · have hf : rest.reverse.all (fun x => x != c) = false := by
          cases hv : rest.reverse.all (fun x => x != c)
          · rfl
          · exact absurd hv hall
        rw [takeWhile_append_of_not_all _ _ _ hf]
    · by_cases hm : sep ∈ rest
      · have h2 := two_le_splitOnChar_of_mem sep rest hm
        unfold splitOnChar
        rw [if_neg hc]
        cases hsp : splitOnChar sep rest with
        | nil => exact absurd hsp (splitOnChar_ne_nil sep rest)
        | cons p ps =>
          rw [hsp] at h2 ih
          have hps : ps ≠ [] := by
            simp only [List.length_cons] at h2
            intro hnil
            rw [hnil] at h2
            simp at h2
          rw [lastPart_cons _ _ hps]
          rw [lastPart_cons _ _ hps] at ih
          rw [ih, List.reverse_cons]
          have hall : rest.reverse.all (fun x => x != sep) = false := by
            cases hv : rest.reverse.all (fun x => x != sep)
            · rfl
            · exfalso
              have := List.all_eq_true.mp hv sep (List.mem_reverse.mpr hm)
              simp at this
          rw [takeWhile_append_of_not_all _ _ _ hall]
      · have hnone : sep ∉ c :: rest := by
          rw [List.mem_cons, not_or]
          exact ⟨fun hh => hc hh.symm, hm⟩
        rw [splitOnChar_of_not_mem sep _ hnone]
        show c :: rest = _
        have hall : (c :: rest).reverse.all (fun x => x != sep) = true := by
          apply List.all_eq_true.mpr
          intro x hx
          have hx2 : x ∈ c :: rest := List.mem_reverse.mp hx
          have hx3 : x ≠ sep := fun hh => hnone (hh ▸ hx2)
          simpa using hx3
        rw [takeWhile_of_all _ _ hall, List.reverse_reverse]

lemma extractJobID_eq (uri : String) : extractJobID uri = afterLastSlash uri := by
  unfold extractJobID afterLastSlash
  rw [lastPart_splitOnChar]

lemma afterLastSlash_slash_end (t : String) : afterLastSlash (t ++ "/") = "" := by
  unfold afterLastSlash
  rw [data_append]
  have h1 : ("/" : String).data = ['/'] := rfl
  rw [h1, List.reverse_append]
  simp [List.takeWhile_cons]

/-! ### Error aggregation lemmas -/

lemma mem_joinErrors (e : String) (l : List String) (h : e ∈ l) :
    e.data <:+: (joinErrors l).data := by
  induction l with
  | nil => simp at h
  | cons a rest ih =>
    cases rest with
    | nil =>
      rcases List.mem_cons.mp h with h1 | h1
      · subst h1; exact List.infix_refl _
      · simp at h1
    | cons b rest' =>
      have hjoin : joinErrors (a :: b :: rest') = a ++ "; " ++ joinErrors (b :: rest') := rfl
      rcases List.mem_cons.mp h with h1 | h1
      · subst h1
        refine ⟨[], ("; " : String).data ++ (joinErrors (b :: rest')).data, ?_⟩
        rw [hjoin, data_append, data_append]
        simp [List.append_assoc]
      · obtain ⟨s, t, hst⟩ := ih (by exact h1)
        refine ⟨(a ++ "; ").data ++ s, t, ?_⟩
        rw [hjoin, data_append]
        rw [List.append_assoc, List.append_assoc, ← List.append_assoc s, hst]
        rw [data_append, data_append]

/-! ### Validation lemmas -/

lemma validateBenchmark_none (providers : Registry) (b : BenchmarkConfig)
    (p : ProviderResource) (hp : providers.lookup b.providerID = some p)
    (him : p.adapter.image ≠ "") : validateBenchmark providers b = none := by
  unfold validateBenchmark
  rw [hp]
  simp [him]

lemma validateBenchmark_required (providers : Registry) (b : BenchmarkConfig)
    (p : ProviderResource) (hp : providers.lookup b.providerID = some p)
    (him : p.adapter.image = "") :
    validateBenchmark providers b =
      some ("runtime adapter image is required for benchmark " ++ b.id) := by
  unfold validateBenchmark
  rw [hp]
  simp [him]

/-! ### Submission lemmas -/

lemma applyEvents_append (c : Cluster) (es₁ es₂ : List ClusterEvent) :
    applyEvents c (es₁ ++ es₂) = applyEvents (applyEvents c es₁) es₂ :=
  List.foldl_append applyEvent c es₁ es₂

lemma applyEvents_flatMap (providers : Registry) (job : EvaluationJob)
    (bs : List BenchmarkConfig) :
    ∀ c : Cluster,
      applyEvents c (bs.flatMap (benchmarkEvents providers job)) =
        ⟨c.jobs ++ bs.map (jobObjectFor providers job),
         c.configMaps ++ bs.map (configMapObjectFor job)⟩ := by
  induction bs with
  | nil =>
    intro c
    cases c
    simp [applyEvents]
  | cons b bs ih =>
    intro c
    rw [List.flatMap_cons, applyEvents_append]
    have h1 : applyEvents c (benchmarkEvents providers job b) =
        ⟨c.jobs ++ [jobObjectFor providers job b],
         c.configMaps ++ [configMapObjectFor job b]⟩ := rfl
    rw [h1, ih]
    simp

lemma runEvaluationJob_success (providers : Registry) (job : EvaluationJob)
    (c : Cluster) (h : validationErrors providers job.benchmarks = []) :
    runEvaluationJob providers job c =
      (none, ⟨c.jobs ++ job.benchmarks.map (jobObjectFor providers job),
              c.configMaps ++ job.benchmarks.map (configMapObjectFor job)⟩) := by
  unfold runEvaluationJob
  rw [h]
  unfold submissionEvents
  rw [applyEvents_flatMap]

lemma runEvaluationJob_invalid (providers : Registry) (job : EvaluationJob)
    (c : Cluster) (e : String) (es : List String)
    (h : validationErrors providers job.benchmarks = e :: es) :
    runEvaluationJob providers job c = (some (joinErrors (e :: es)), c) := by
  unfold runEvaluationJob
  rw [h]

lemma runEvaluationJob_mem_error (providers : Registry) (job : EvaluationJob)
    (c : Cluster) (b : BenchmarkConfig) (msg : String)
    (hb : b ∈ job.benchmarks) (hv : validateBenchmark providers b = some msg) :
    ∃ e, (runEvaluationJob providers job c).1 = some e ∧
      msg.data <:+: e.data ∧ (runEvaluationJob providers job c).2 = c := by
  have hmem : msg ∈ validationErrors providers job.benchmarks :=
    List.mem_filterMap.mpr ⟨b, hb, hv⟩
  cases hes : validationErrors providers job.benchmarks with
  | nil => rw [hes] at hmem; simp at hmem
  | cons e es =>
    rw [hes] at hmem
    rw [runEvaluationJob_invalid providers job c e es hes]
    exact ⟨joinErrors (e :: es), rfl, mem_joinErrors msg (e :: es) hmem, rfl⟩

/-! ### Teardown lemmas -/

/-- No execution unit named `n` exists in the cluster. -/
def jobAbsent (n : String) (c : Cluster) : Prop :=
  c.jobs.any (fun j => j.name == n) = false

/-- No configuration object named `n` exists in the cluster. -/
def cmAbsent (n : String) (c : Cluster) : Prop :=
  c.configMaps.any (fun cm => cm.name == n) = false

lemma any_filter_false {α : Type} (p q : α → Bool) (l : List α)
    (h : l.any p = false) : (l.filter q).any p = false := by
  cases hv : (l.filter q).any p
  · rfl
  · exfalso
    obtain ⟨x, hx, hpx⟩ := List.any_eq_true.mp hv
    have hx2 := (List.mem_filter.mp hx).1
    have h2 : l.any p = true := List.any_eq_true.mpr ⟨x, hx2, hpx⟩
    rw [h] at h2
    exact absurd h2 (by simp)

lemma deleteJobObject_self (n : String) (c : Cluster) :
    jobAbsent n (deleteJobObject n c).2 := by
  unfold deleteJobObject jobAbsent
  cases hv : c.jobs.any (fun j => j.name == n)
  · simp [hv]
  · simp only [hv, if_true]
    apply List.any_eq_false.mpr
    intro j hj
    have h2 := (List.mem_filter.mp hj).2
    simpa using h2

lemma deleteJobObject_preserves_jobAbsent (n m : String) (c : Cluster)
    (h : jobAbsent n c) : jobAbsent n (deleteJobObject m c).2 := by
  unfold deleteJobObject jobAbsent at *
  cases hv : c.jobs.any (fun j => j.name == m)
  · simpa [hv] using h
  · simp only [hv, if_true]
    exact any_filter_false _ _ _ h

lemma deleteJobObject_configMaps (m : String) (c : Cluster) :
    (deleteJobObject m c).2.configMaps = c.configMaps := by
  unfold deleteJobObject
  cases hv : c.jobs.any (fun j => j.name == m) <;> simp [hv]

lemma deleteConfigMapObject_self (n : String) (c : Cluster) :
    cmAbsent n (deleteConfigMapObject n c).2 := by
  unfold deleteConfigMapObject cmAbsent
  cases hv : c.configMaps.any (fun cm => cm.name == n)
  · simp [hv]
  · simp only [hv, if_true]
    apply List.any_eq_false.mpr
    intro cm hcm
    have h2 := (List.mem_filter.mp hcm).2
    simpa using h2

lemma deleteConfigMapObject_preserves_cmAbsent (n m : String) (c : Cluster)
    (h : cmAbsent n c) : cmAbsent n (deleteConfigMapObject m c).2 := by
  unfold deleteConfigMapObject cmAbsent at *
  cases hv : c.configMaps.any (fun cm => cm.name == m)
  · simpa [hv] using h
  · simp only [hv, if_true]
    exact any_filter_false _ _ _ h

lemma deleteConfigMapObject_jobs (m : String) (c : Cluster) :
    (deleteConfigMapObject m c).2.jobs = c.jobs := by
  unfold deleteConfigMapObject
  cases hv : c.configMaps.any (fun cm => cm.name == m) <;> simp [hv]

lemma teardownBenchmark_self (jid b : String) (c : Cluster) :
    jobAbsent (jobName jid b) (teardownBenchmark jid b c).2 ∧
    cmAbsent (configMapName jid b) (teardownBenchmark jid b c).2 := by
  unfold teardownBenchmark
  constructor
  · show jobAbsent _ (deleteConfigMapObject _ _).2
    unfold jobAbsent
    rw [deleteConfigMapObject_jobs]
    exact deleteJobObject_self _ c
  · exact deleteConfigMapObject_self _ _

lemma teardownBenchmark_preserves (jid b n m : String) (c : Cluster)
    (hj : jobAbsent n c) (hc : cmAbsent m c) :
    jobAbsent n (teardownBenchmark jid b c).2 ∧
    cmAbsent m (teardownBenchmark jid b c).2 := by
  unfold teardownBenchmark
  constructor
  · show jobAbsent _ (deleteConfigMapObject _ _).2
    unfold jobAbsent
    rw [deleteConfigMapObject_jobs]
    exact deleteJobObject_preserves_jobAbsent n _ c hj
  · apply deleteConfigMapObject_preserves_cmAbsent
    show cmAbsent m (deleteJobObject _ c).2
    unfold cmAbsent
    rw [deleteJobObject_configMaps]
    exact hc

lemma teardownOutcomes_preserves (jid : String) (bids : List String) (n m : String) :
    ∀ c : Cluster, jobAbsent n c → cmAbsent m c →
      jobAbsent n (teardownOutcomes jid bids c).2 ∧
      cmAbsent m (teardownOutcomes jid bids c).2 := by
  induction bids with
  | nil => intro c hj hc; exact ⟨hj, hc⟩
  | cons b rest ih =>
    intro c hj hc
    have h1 := teardownBenchmark_preserves jid b n m c hj hc
    exact ih _ h1.1 h1.2

lemma teardownOutcomes_absent (jid : String) (bids : List String) :
    ∀ c : Cluster, ∀ b ∈ bids,
      jobAbsent (jobName jid b) (teardownOutcomes jid bids c).2 ∧
      cmAbsent (configMapName jid b) (teardownOutcomes jid bids c).2 := by
  induction bids with
  | nil => intro c b hb; simp at hb
  | cons b0 rest ih =>
    intro c b hb
    rcases List.mem_cons.mp hb with h1 | h1
    · subst h1
      have h2 := teardownBenchmark_self jid b c
      exact teardownOutcomes_preserves jid rest _ _ _ h2.1 h2.2
    · exact ih _ b h1

lemma teardownBenchmark_of_absent (jid b : String) (c : Cluster)
    (hj : jobAbsent (jobName jid b) c) (hc : cmAbsent (configMapName jid b) c) :
    teardownBenchmark jid b c =
      ([DeleteOutcome.notFound, DeleteOutcome.notFound], c) := by
  unfold teardownBenchmark deleteJobObject deleteConfigMapObject
  unfold jobAbsent at hj
  unfold cmAbsent at hc
  simp [hj, hc]

lemma teardownOutcomes_of_absent (jid : String) (bids : List String) :
    ∀ c : Cluster,
      (∀ b ∈ bids, jobAbsent (jobName jid b) c ∧ cmAbsent (configMapName jid b) c) →
      (teardownOutcomes jid bids c).2 = c ∧
      ∀ o ∈ (teardownOutcomes jid bids c).1, o = DeleteOutcome.notFound := by
  induction bids with
  | nil => intro c _; exact ⟨rfl, by intro o ho; simp [teardownOutcomes] at ho⟩
  | cons b0 rest ih =>
    intro c h
    have h0 := h b0 (List.mem_cons_self b0 rest)
    have htb := teardownBenchmark_of_absent jid b0 c h0.1 h0.2
    have hrest := ih c (fun b hb => h b (List.mem_cons_of_mem b0 hb))
    unfold teardownOutcomes
    rw [htb]
    refine ⟨hrest.1, ?_⟩
    intro o ho
    simp only [List.mem_append] at ho
    rcases ho with ho | ho
    · simp at ho
      exact ho
    · exact hrest.2 o ho

lemma teardown_fst_none (jid : String) (bids : List String) (c : Cluster) :
    (teardown jid bids c).1 = none := by
  unfold teardown
  have h : (teardownOutcomes jid bids c).1.filterMap deleteError = [] := by
    apply List.filterMap_eq_nil_iff.mpr
    intro o _
    cases o <;> rfl
  simp [h]

lemma teardown_snd (jid : String) (bids : List String) (c : Cluster) :
    (teardown jid bids c).2 = (teardownOutcomes jid bids c).2 := by
  unfold teardown
  cases hv : (teardownOutcomes jid bids c).1.filterMap deleteError <;> simp [hv]

/-! ### Submission ordering lemma -/

lemma flatMap_createJob_preceded (providers : Registry) (job : EvaluationJob) :
    ∀ (bs : List BenchmarkConfig) (p q : List ClusterEvent) (ju : JobObject),
      bs.flatMap (benchmarkEvents providers job) =
        p ++ ClusterEvent.createJob ju :: q →
      ∃ cm, ClusterEvent.createConfigMap cm ∈ p ∧ cm.name = ju.configMapRef := by
  intro bs
  induction bs with
  | nil =>
    intro p q ju h
    simp at h
  | cons b bs ih =>
    intro p q ju h
    rw [List.flatMap_cons] at h
    have hshape : benchmarkEvents providers job b ++ bs.flatMap (benchmarkEvents providers job) =
        ClusterEvent.createConfigMap (configMapObjectFor job b) ::
        ClusterEvent.createJob (jobObjectFor providers job b) ::
        bs.flatMap (benchmarkEvents providers job) := rfl
    rw [hshape] at h
    cases p with
    | nil =>
      simp only [List.nil_append] at h
      exact absurd (List.head_eq_of_cons_eq h.symm) (fun hh => ClusterEvent.noConfusion hh)
    | cons x p' =>
      rw [List.cons_append] at h
      have hx := List.head_eq_of_cons_eq h
      have htail := List.tail_eq_of_cons_eq h
      cases p' with
      | nil =>
        simp only [List.nil_append] at htail
        have hju := List.head_eq_of_cons_eq htail
        have hju2 : jobObjectFor providers job b = ju := by
          injection hju
        refine ⟨configMapObjectFor job b, ?_, ?_⟩
        · rw [← hx]; exact List.mem_cons_self _ _
        · rw [← hju2]
          rfl
      | cons y p'' =>
        rw [List.cons_append] at htail
        have hy := List.head_eq_of_cons_eq htail
        have htail2 := List.tail_eq_of_cons_eq htail
        obtain ⟨cm, hcm, hname⟩ := ih p'' q ju htail2
        exact ⟨cm, List.mem_cons_of_mem _ (List.mem_cons_of_mem _ hcm), hname⟩

/-! ### Namer injectivity lemmas -/

lemma sanitize_all (s : String) : (sanitize s).data.all isNameChar = true := by
  apply List.all_eq_true.mpr
  intro c hc
  rw [sanitize_data] at hc
  obtain ⟨c0, _, rfl⟩ := List.mem_map.mp hc
  exact sanitizeChar_legal c0

lemma all_append_data (s t : String) (p : Char → Bool)
    (hs : s.data.all p = true) (ht : t.data.all p = true) :
    (s ++ t).data.all p = true := by
  rw [data_append, List.all_append, hs, ht]
  rfl

lemma clipName_append_ne (P b1 b2 : String)
    (hlen1 : P.length + b1.length ≤ 63) (hlen2 : P.length + b2.length ≤ 63)
    (hne : b1 ≠ b2) : clipName (P ++ b1) ≠ clipName (P ++ b2) := by
  rw [clipName_of_short _ (by rw [length_append]; omega),
      clipName_of_short _ (by rw [length_append]; omega)]
  intro hcontra
  apply hne
  have hd : P.data ++ b1.data = P.data ++ b2.data := by
    have h := congrArg String.data hcontra
    rwa [data_append, data_append] at h
  have h2 := List.append_cancel_left hd
  cases b1
  cases b2
  exact congrArg String.mk h2

/-! ## Claim theorems -/

/-- C1: for every evaluation job in which at least one benchmark resolves to a
provider whose adapter spec has an empty image, `RunEvaluationJob` returns an
error whose text contains the literal phrase "runtime adapter image is
required", and no execution unit or configuration object is created in the
cluster for any benchmark of the job (the cluster is unchanged: validation
completes for the whole job before any submission). -/
theorem c1_empty_image_rejected (providers : Registry) (job : EvaluationJob)
    (c : Cluster) (b : BenchmarkConfig) (p : ProviderResource)
    (hb : b ∈ job.benchmarks)
    (hp : providers.lookup b.providerID = some p)
    (him : p.adapter.image = "") :
    ∃ e, (runEvaluationJob providers job c).1 = some e ∧
      "runtime adapter image is required".data <:+: e.data ∧
      (runEvaluationJob providers job c).2 = c := by
  have hv := validateBenchmark_required providers b p hp him
  obtain ⟨e, he, hinf, hc⟩ := runEvaluationJob_mem_error providers job c b _ hb hv
  refine ⟨e, he, ?_, hc⟩
  have hpre : "runtime adapter image is required".data <+:
      ("runtime adapter image is required for benchmark " ++ b.id).data := by
    refine ⟨" for benchmark ".data ++ b.id.data, ?_⟩
    have hsplit : "runtime adapter image is required".data ++ " for benchmark ".data
        = ("runtime adapter image is required for benchmark " : String).data := by decide
    rw [← List.append_assoc, hsplit, ← data_append]
  have hpinf : "runtime adapter image is required".data <:+:
      ("runtime adapter image is required for benchmark " ++ b.id).data := by
    obtain ⟨t, ht⟩ := hpre
    exact ⟨[], t, by simpa using ht⟩
  exact hpinf.trans hinf

/-- Witness for C1: the unit test's invalid configuration — a provider with an
empty image and two benchmarks — yields the aggregated required-image error
and leaves the cluster empty. -/
theorem c1_empty_image_rejected_witness :
    ∃ e, (runEvaluationJob
        [("lm_evaluation_harness",
          ⟨"lm_evaluation_harness", ⟨"", "", "", "", []⟩⟩)]
        ⟨"job-invalid", ⟨"http://model", "model"⟩,
          [⟨"bench-1", "lm_evaluation_harness", []⟩,
           ⟨"bench-2", "lm_evaluation_harness", []⟩]⟩
        emptyCluster).1 = some e ∧
      "runtime adapter image is required".data <:+: e.data ∧
      (runEvaluationJob
        [("lm_evaluation_harness",
          ⟨"lm_evaluation_harness", ⟨"", "", "", "", []⟩⟩)]
        ⟨"job-invalid", ⟨"http://model", "model"⟩,
          [⟨"bench-1", "lm_evaluation_harness", []⟩,
           ⟨"bench-2", "lm_evaluation_harness", []⟩]⟩
        emptyCluster).2 = emptyCluster :=
  c1_empty_image_rejected _ _ emptyCluster
    ⟨"bench-1", "lm_evaluation_harness", []⟩ ⟨"lm_evaluation_harness", ⟨"", "", "", "", []⟩⟩
    (List.mem_cons_self _ _) (by decide) rfl

/-- C2: for every evaluation job in which every benchmark's provider id
resolves in the registry to an adapter spec with a non-empty image,
`RunEvaluationJob` succeeds (no error) and afterward exactly N execution
units and N configuration objects exist in the cluster, named
`jobName jobID benchmarkID` and `configMapName jobID benchmarkID`. -/
theorem c2_all_valid_creates_resources (providers : Registry) (job : EvaluationJob)
    (h : ∀ b ∈ job.benchmarks,
      ∃ p, providers.lookup b.providerID = some p ∧ p.adapter.image ≠ "") :
    (runEvaluationJob providers job emptyCluster).1 = none ∧
    (runEvaluationJob providers job emptyCluster).2.jobs.map JobObject.name =
      job.benchmarks.map (fun b => jobName job.id b.id) ∧
    (runEvaluationJob providers job emptyCluster).2.configMaps.map ConfigMapObject.name =
      job.benchmarks.map (fun b => configMapName job.id b.id) ∧
    (runEvaluationJob providers job emptyCluster).2.jobs.length =
      job.benchmarks.length ∧
    (runEvaluationJob providers job emptyCluster).2.configMaps.length =
      job.benchmarks.length := by
  have hval : validationErrors providers job.benchmarks = [] := by
    apply List.filterMap_eq_nil_iff.mpr
    intro b hb
    obtain ⟨p, hp, him⟩ := h b hb
    exact validateBenchmark_none providers b p hp him
  rw [runEvaluationJob_success providers job emptyCluster hval]
  refine ⟨rfl, ?_, ?_, ?_, ?_⟩
  · show (([] : List JobObject) ++ _).map JobObject.name = _
    simp [jobObjectFor]
  · show (([] : List ConfigMapObject) ++ _).map ConfigMapObject.name = _
    simp [configMapObjectFor]
  · simp [emptyCluster]
  · simp [emptyCluster]

/-- Witness for C2: the integration test's configuration — two benchmarks on
a provider with image `busybox` — runs without error. -/
theorem c2_all_valid_creates_resources_witness :
    (runEvaluationJob
      [("lm_evaluation_harness",
        ⟨"lm_evaluation_harness",
         ⟨"docker.io/library/busybox:1.36", "/bin/sh", "500m", "1Gi",
          [⟨"VAR_NAME", "VALUE"⟩]⟩⟩)]
      ⟨"1936da05-2f27-4fd4-b000-ebcb71af1fbe", ⟨"http://model", "model"⟩,
        [⟨"arc_easy", "lm_evaluation_harness", []⟩,
         ⟨"arc", "lm_evaluation_harness", []⟩]⟩
      emptyCluster).1 = none :=
  (c2_all_valid_creates_resources _ _ (by
    intro b hb
    rcases List.mem_cons.mp hb with rfl | hb
    · exact ⟨⟨"lm_evaluation_harness",
        ⟨"docker.io/library/busybox:1.36", "/bin/sh", "500m", "1Gi",
         [⟨"VAR_NAME", "VALUE"⟩]⟩⟩, by decide, by decide⟩
    rcases List.mem_cons.mp hb with rfl | hb
    · exact ⟨⟨"lm_evaluation_harness",
        ⟨"docker.io/library/busybox:1.36", "/bin/sh", "500m", "1Gi",
         [⟨"VAR_NAME", "VALUE"⟩]⟩⟩, by decide, by decide⟩
    · simp at hb)).1

/-- C5: every benchmark of the job is checked during validation — whenever a
benchmark's validation records a complaint, that complaint appears verbatim
(as a substring) inside the single aggregated error `RunEvaluationJob`
returns, so callers can test membership by substring. -/
theorem c5_validation_aggregates_all (providers : Registry) (job : EvaluationJob)
    (c : Cluster) (b : BenchmarkConfig) (msg : String)
    (hb : b ∈ job.benchmarks)
    (hv : validateBenchmark providers b = some msg) :
    ∃ e, (runEvaluationJob providers job c).1 = some e ∧ msg.data <:+: e.data := by
  obtain ⟨e, he, hinf, _⟩ := runEvaluationJob_mem_error providers job c b msg hb hv
  exact ⟨e, he, hinf⟩

/-- Witness for C5: with two invalid benchmarks, the complaint of the second
one — not only the first — appears in the aggregated error, so validation did
not stop at the first failure. -/
theorem c5_validation_aggregates_all_witness :
    ∃ e, (runEvaluationJob
        [("lm_evaluation_harness",
          ⟨"lm_evaluation_harness", ⟨"", "", "", "", []⟩⟩)]
        ⟨"job-invalid", ⟨"http://model", "model"⟩,
          [⟨"bench-1", "lm_evaluation_harness", []⟩,
           ⟨"bench-2", "lm_evaluation_harness", []⟩]⟩
        emptyCluster).1 = some e ∧
      ("runtime adapter image is required for benchmark bench-2" : String).data <:+: e.data :=
  c5_validation_aggregates_all _ _ emptyCluster
    ⟨"bench-2", "lm_evaluation_harness", []⟩
    "runtime adapter image is required for benchmark bench-2"
    (List.mem_cons_of_mem _ (List.mem_cons_self _ _)) (by decide)

/-- C6: in the submission phase, whenever the ordered event sequence contains
the creation of an execution unit, the creation of the configuration object
it references occurs strictly earlier in the sequence — no execution unit is
ever submitted while its configuration object does not yet exist. -/
theorem c6_config_before_unit (providers : Registry) (job : EvaluationJob)
    (p q : List ClusterEvent) (ju : JobObject)
    (h : submissionEvents providers job = p ++ ClusterEvent.createJob ju :: q) :
    ∃ cm, ClusterEvent.createConfigMap cm ∈ p ∧ cm.name = ju.configMapRef := by
  unfold submissionEvents at h
  exact flatMap_createJob_preceded providers job job.benchmarks p q ju h

/-- Witness for C6: for a one-benchmark job, the single execution-unit event
is preceded by its configuration-object event. -/
theorem c6_config_before_unit_witness :
    ∃ cm, ClusterEvent.createConfigMap cm ∈
        [ClusterEvent.createConfigMap
          (configMapObjectFor
            ⟨"job-1", ⟨"http://model", "model"⟩,
              [⟨"arc", "lm_evaluation_harness", []⟩]⟩
            ⟨"arc", "lm_evaluation_harness", []⟩)] ∧
      cm.name = (jobObjectFor
        [("lm_evaluation_harness",
          ⟨"lm_evaluation_harness",
           ⟨"docker.io/library/busybox:1.36", "/bin/sh", "500m", "1Gi", []⟩⟩)]
        ⟨"job-1", ⟨"http://model", "model"⟩,
          [⟨"arc", "lm_evaluation_harness", []⟩]⟩
        ⟨"arc", "lm_evaluation_harness", []⟩).configMapRef :=
  c6_config_before_unit
    [("lm_evaluation_harness",
      ⟨"lm_evaluation_harness",
       ⟨"docker.io/library/busybox:1.36", "/bin/sh", "500m", "1Gi", []⟩⟩)]
    ⟨"job-1", ⟨"http://model", "model"⟩,
      [⟨"arc", "lm_evaluation_harness", []⟩]⟩
    [ClusterEvent.createConfigMap
      (configMapObjectFor
        ⟨"job-1", ⟨"http://model", "model"⟩,
          [⟨"arc", "lm_evaluation_harness", []⟩]⟩
        ⟨"arc", "lm_evaluation_harness", []⟩)]
    []
    (jobObjectFor
      [("lm_evaluation_harness",
        ⟨"lm_evaluation_harness",
         ⟨"docker.io/library/busybox:1.36", "/bin/sh", "500m", "1Gi", []⟩⟩)]
      ⟨"job-1", ⟨"http://model", "model"⟩,
        [⟨"arc", "lm_evaluation_harness", []⟩]⟩
      ⟨"arc", "lm_evaluation_harness", []⟩)
    rfl

/-- C4: teardown is idempotent — after one `Teardown`, a second `Teardown`
for the same `(jobID, benchmarkIDs)` returns no error, even though every raw
delete of that second call reports the object as not found (not-found deletes
are treated as success). -/
theorem c4_teardown_idempotent (jobID : String) (bids : List String) (c : Cluster) :
    (teardown jobID bids ((teardown jobID bids c).2)).1 = none ∧
    ∀ o ∈ (teardownOutcomes jobID bids ((teardown jobID bids c).2)).1,
      o = DeleteOutcome.notFound := by
  constructor
  · exact teardown_fst_none _ _ _
  · rw [teardown_snd]
    exact (teardownOutcomes_of_absent jobID bids _
      (fun b hb => teardownOutcomes_absent jobID bids c b hb)).2

/-- C7: the ConfigRenderer's payload is a lossless encoding — decoding the
rendered payload of any parameter mapping (numbers, strings, booleans,
nested structures) recovers exactly the original values; in particular a
floating-point value decodes back to the same float and is never rendered
as an integer. -/
theorem c7_configRenderer_lossless :
    (∀ v : JValue, decodePayload (encode v) = some (v, [])) ∧
    (∀ jobID benchmarkID providerID params,
      decodePayload (renderConfig jobID benchmarkID providerID params) =
        some (JValue.obj ([("job_id", JValue.str jobID),
                           ("benchmark_id", JValue.str benchmarkID),
                           ("provider_id", JValue.str providerID)] ++ params), [])) := by
  refine ⟨decodePayload_encode, ?_⟩
  intro jobID benchmarkID providerID params
  exact decodePayload_encode _

set_option maxRecDepth 16384 in
/-- C10: `createAddEntityStatement` returns an INSERT statement targeting the
`Evaluations` table with exactly one bound parameter (despite its doc comment
claiming a `table_name entity` argument order, no table-name placeholder
exists), and both table-creation statements constrain the `entity` column to
valid JSON via a `json_valid` CHECK. -/
theorem c10_sql_helper_shapes :
    createAddEntityStatement.data.count '?' = 1 ∧
    ("INSERT INTO Evaluations" : String).data <+: createAddEntityStatement.data ∧
    ("CHECK (json_valid(entity))" : String).data <:+: createEvaluationsTable.data ∧
    ("CHECK (json_valid(entity))" : String).data <:+: createCollectionsTable.data := by
  refine ⟨by decide, ⟨?_, ?_⟩⟩
  · decide
  constructor
  · decide
  · decide

set_option maxRecDepth 16384 in
/-- Counterexample to C3 as stated: the naming functions cannot be injective
in `benchmarkID` for inputs of arbitrary length while keeping every output
within 63 characters — two distinct benchmark ids of 70 and 71 characters
are truncated to the same execution-unit name. -/
theorem c3_namer_counterexample :
    String.mk (List.replicate 70 'a') ≠ String.mk (List.replicate 71 'a') ∧
    jobName "j" (String.mk (List.replicate 70 'a')) =
      jobName "j" (String.mk (List.replicate 71 'a')) := by
  constructor
  · decide
  · decide

/-- C3 (amended): `jobName` and `configMapName` are pure total functions;
for all inputs the output satisfies the cluster naming constraints
(lowercase alphanumerics and hyphens only, length at most 63), with illegal
or over-long inputs normalized and truncated rather than rejected; and for a
fixed jobID, distinct benchmarkID values yield distinct names provided the
benchmark ids consist of legal name characters and are short enough that no
truncation occurs. -/
theorem c3_namer_amended :
    (∀ jobID benchmarkID : String,
      (jobName jobID benchmarkID).length ≤ 63 ∧
      (jobName jobID benchmarkID).data.all isNameChar = true ∧
      (configMapName jobID benchmarkID).length ≤ 63 ∧
      (configMapName jobID benchmarkID).data.all isNameChar = true) ∧
    (∀ jobID b1 b2 : String,
      b1.data.all isNameChar = true → b2.data.all isNameChar = true →
      jobID.length + b1.length ≤ 50 → jobID.length + b2.length ≤ 50 →
      b1 ≠ b2 →
      jobName jobID b1 ≠ jobName jobID b2 ∧
      configMapName jobID b1 ≠ configMapName jobID b2) := by
  constructor
  · intro jobID benchmarkID
    refine ⟨clipName_length _, ?_, clipName_length _, ?_⟩
    · exact clipName_all_legal _
        (all_append_data _ _ _
          (all_append_data _ _ _
            (all_append_data _ _ _ (by decide) (sanitize_all jobID))
            (by decide))
          (sanitize_all benchmarkID))
    · exact clipName_all_legal _
        (all_append_data _ _ _
          (all_append_data _ _ _
            (all_append_data _ _ _ (by decide) (sanitize_all jobID))
            (by decide))
          (sanitize_all benchmarkID))
  · intro jobID b1 b2 h1 h2 hl1 hl2 hne
    have h5 : ("eval-" : String).length = 5 := rfl
    have h9 : ("eval-cfg-" : String).length = 9 := rfl
    have hdash : ("-" : String).length = 1 := rfl
    constructor
    · unfold jobName
      rw [sanitize_of_legal b1 h1, sanitize_of_legal b2 h2]
      apply clipName_append_ne _ _ _ _ _ hne
      · rw [length_append, length_append, sanitize_length, h5, hdash]; omega
      · rw [length_append, length_append, sanitize_length, h5, hdash]; omega
    · unfold configMapName
      rw [sanitize_of_legal b1 h1, sanitize_of_legal b2 h2]
      apply clipName_append_ne _ _ _ _ _ hne
      · rw [length_append, length_append, sanitize_length, h9, hdash]; omega
      · rw [length_append, length_append, sanitize_length, h9, hdash]; omega

/-- Witness for the amended C3: two short legal benchmark ids under the same
job id yield distinct execution-unit names. -/
theorem c3_namer_amended_witness :
    jobName "job1" "arc-easy" ≠ jobName "job1" "arc" :=
  (c3_namer_amended.2 "job1" "arc-easy" "arc"
    (by decide) (by decide) (by decide) (by decide) (by decide)).1

/-- C8: for every request whose body deserialization/validation fails, the
handler answers 400 and passes nothing to `storage.CreateEvaluationJob`;
when deserialization and storage both succeed it answers 202 carrying the
storage layer's response (and the one deserialized job was passed to
storage). -/
theorem c8_create_handler {β ε ρ : Type} (bs : β)
    (unmarshal : β → Except String ε) (create : ε → Except String ρ) :
    (∀ e, unmarshal bs = Except.error e →
      handleCreateEvaluation (Except.ok bs) unmarshal create =
        (HandlerWrite.error e 400, [])) ∧
    (∀ ev r, unmarshal bs = Except.ok ev → create ev = Except.ok r →
      handleCreateEvaluation (Except.ok bs) unmarshal create =
        (HandlerWrite.json (some r) 202, [ev])) := by
  constructor
  · intro e he
    show (match unmarshal bs with
          | Except.error e' => (HandlerWrite.error e' 400, ([] : List ε))
          | Except.ok ev =>
            match create ev with
            | Except.error e' => (HandlerWrite.error e' 500, [ev])
            | Except.ok resp => (HandlerWrite.json (some resp) 202, [ev])) = _
    rw [he]
  · intro ev r hev hr
    show (match unmarshal bs with
          | Except.error e' => (HandlerWrite.error e' 400, ([] : List ε))
          | Except.ok ev' =>
            match create ev' with
            | Except.error e' => (HandlerWrite.error e' 500, [ev'])
            | Except.ok resp => (HandlerWrite.json (some resp) 202, [ev'])) = _
    rw [hev]
    show (match create ev with
          | Except.error e' => (HandlerWrite.error e' 500, [ev])
          | Except.ok resp => (HandlerWrite.json (some resp) 202, [ev])) = _
    rw [hr]

/-- Witness for C8: a failing deserializer yields 400 with no storage call;
a succeeding deserializer and storage yield 202 with the storage response. -/
theorem c8_create_handler_witness :
    handleCreateEvaluation (Except.ok (0 : Nat))
        (fun _ : Nat => (Except.error "bad request" : Except String Nat))
        (fun n : Nat => (Except.ok n : Except String Nat)) =
      (HandlerWrite.error "bad request" 400, ([] : List Nat)) ∧
    handleCreateEvaluation (Except.ok (0 : Nat))
        (fun n : Nat => (Except.ok n : Except String Nat))
        (fun n : Nat => (Except.ok (n + 1) : Except String Nat)) =
      (HandlerWrite.json (some 1) 202, [0]) :=
  ⟨(c8_create_handler 0 _ _).1 "bad request" rfl,
   (c8_create_handler 0 _ _).2 0 1 rfl rfl⟩

/-- C9: the job id `HandleCancelEvaluation` passes to
`storage.DeleteEvaluationJob` is exactly the substring of the request URI
after the final `/` (empty when the URI ends with `/`); the handler answers
204 when the delete succeeds and 500 with the error text when it fails. -/
theorem c9_cancel_handler {ρ : Type} (uri : String)
    (deleteFn : String → Except String ρ) :
    extractJobID uri = afterLastSlash uri ∧
    (∀ t : String, extractJobID (t ++ "/") = "") ∧
    (∀ e, deleteFn (afterLastSlash uri) = Except.error e →
      handleCancelEvaluation uri deleteFn =
        (HandlerWrite.error e 500, [afterLastSlash uri])) ∧
    (∀ r, deleteFn (afterLastSlash uri) = Except.ok r →
      handleCancelEvaluation uri deleteFn =
        (HandlerWrite.json none 204, [afterLastSlash uri])) := by
  refine ⟨extractJobID_eq uri, ?_, ?_, ?_⟩
  · intro t
    rw [extractJobID_eq, afterLastSlash_slash_end]
  · intro e he
    show (match deleteFn (extractJobID uri) with
          | Except.error e' => (HandlerWrite.error e' 500, [extractJobID uri])
          | Except.ok _ => (HandlerWrite.json (none : Option ρ) 204, [extractJobID uri])) = _
    rw [extractJobID_eq, he]
  · intro r hr
    show (match deleteFn (extractJobID uri) with
          | Except.error e' => (HandlerWrite.error e' 500, [extractJobID uri])
          | Except.ok _ => (HandlerWrite.json (none : Option ρ) 204, [extractJobID uri])) = _
    rw [extractJobID_eq, hr]

set_option maxRecDepth 16384 in
/-- Witness for C9: cancelling via the URI `/api/v1/evaluations/jobs/abc123`
passes exactly `abc123` to the storage delete and answers 204. -/
theorem c9_cancel_handler_witness :
    handleCancelEvaluation "/api/v1/evaluations/jobs/abc123"
        (fun _ => (Except.ok 0 : Except String Nat)) =
      (HandlerWrite.json none 204, ["abc123"]) := by
  have h := (c9_cancel_handler "/api/v1/evaluations/jobs/abc123"
      (fun _ => (Except.ok 0 : Except String Nat))).2.2.2 0 rfl
  have ha : afterLastSlash "/api/v1/evaluations/jobs/abc123" = "abc123" := by decide
  rw [ha] at h
  exact h

end EvalHub
